import Mathlib

/-!
Verification of the oric-toolbox tape pipeline.

This file gives a shallow embedding of the tape decoding code:
the 13-bit frame predicates of DecoderBackend.h, the byte framing of
TapeEncoder, the slow-format square-wave patterns of TapeEncoder and the
Demodulator carrier selection, the TapeParser state machine
(TapeParser.cpp), and the two-stream merger TapeDecoder::ReadByte
(TapeDecoder.cpp).  Machine integers are modelled as Nat (uint8_t values
as Fin 256); IEEE double time stamps are modelled as exact rationals.
-/

set_option maxRecDepth 100000

namespace OricTape

/-- Xor together bits in byte (parity8 in DecoderBackend.h). -/
def parity8 (x : Nat) : Nat :=
  let x1 := x ^^^ (x >>> 4)
  let x2 := x1 ^^^ (x1 >>> 2)
  let x3 := x2 ^^^ (x2 >>> 1)
  x3 &&& 1

/-- Check if sync bits are ok in 13-bit representation, LSB first
(is_sync_ok of DecoderBackend.h). -/
def is_sync_ok (z : Nat) : Bool :=
  (z &&& 0x0c01) == 0x0c00

/-- Check if parity is OK in 13-bit representation
(is_parity_ok of DecoderBackend.h): `parity == !parity8(byte)` with C
integer negation. -/
def is_parity_ok (z : Nat) : Bool :=
  let byte := (z >>> 1) &&& 255
  let parity := (z >>> 9) &&& 1
  let expected_parity := if parity8 byte = 0 then 1 else 0
  parity == expected_parity

/-- Get data bits from 13-bit representation (get_data_bits of
DecoderBackend.h). -/
def get_data_bits (z : Nat) : Nat :=
  (z >>> 1) &&& 255

/-- Spec-side formulation for C1: the XOR of bits 1..8 of the frame. -/
def xorDataBits (z : Nat) : Bool :=
  (((((((z.testBit 1).xor (z.testBit 2)).xor (z.testBit 3)).xor
      (z.testBit 4)).xor (z.testBit 5)).xor (z.testBit 6)).xor
      (z.testBit 7)).xor (z.testBit 8)

/-- The 13 logical bit values framed by TapeEncoder::EncodeByte, in
emission order (LSB first): start bit 0, the 8 data bits of the byte LSB
first, odd parity, three stop bits. The parity accumulator starts at
true and is xored with each data bit, as in the source loop. -/
def encodeByteBits (byte : Nat) : List Bool :=
  let dataBits : List Bool := List.ofFn fun i : Fin 8 => ((byte >>> i.val) &&& 1) == 1
  let parity : Bool := dataBits.foldl (fun p bit => xor p bit) true
  [false] ++ dataBits ++ [parity] ++ [true, true, true]

/-- Assemble a list of logical bits, first element least significant,
into a Nat code word. -/
def bitsToNat (bs : List Bool) : Nat :=
  bs.foldr (fun b acc => (if b then 1 else 0) + 2 * acc) 0

end OricTape

namespace OricTape

/-- Bundled statement of the three C1 properties for one frame value. -/
def framed13Claim (z : Nat) : Prop :=
  (is_sync_ok z = true ↔ (z &&& 0x0c01) = 0x0c00)
  ∧ (is_parity_ok z = true ↔ z.testBit 9 = !(xorDataBits z))
  ∧ get_data_bits z = (z >>> 1) &&& 255

instance (z : Nat) : Decidable (framed13Claim z) := by
  unfold framed13Claim
  infer_instance

set_option maxHeartbeats 4000000 in
/-- Exhaustive check of framed13Claim, with the 13-bit range split as
128 * a + b to keep the decision procedure shallow. -/
theorem framed13_props_aux : ∀ a < 64, ∀ b < 128, framed13Claim (128 * a + b) := by
  decide

/-- C1: for every 13-bit framed value z, is_sync_ok(z) is true iff
(z AND 0x0c01) = 0x0c00; is_parity_ok(z) is true iff bit 9 of z equals
the logical negation of the XOR of bits 1..8 (odd parity); and
get_data_bits(z) = (z >> 1) AND 0xFF. -/
theorem framed13_props (z : Nat) (hz : z < 8192) :
    (is_sync_ok z = true ↔ (z &&& 0x0c01) = 0x0c00)
    ∧ (is_parity_ok z = true ↔ z.testBit 9 = !(xorDataBits z))
    ∧ get_data_bits z = (z >>> 1) &&& 255 := by
  have h := framed13_props_aux (z / 128) (by omega) (z % 128) (by omega)
  have hz' : 128 * (z / 128) + z % 128 = z := Nat.div_add_mod z 128
  rw [hz'] at h
  exact h

/-- Witness for framed13_props at the frame of data byte 0
(z = 0x1E00: parity bit 1, stop bits 1). -/
theorem framed13_props_witness :
    (0x1E00 < 8192)
    ∧ ((is_sync_ok 0x1E00 = true ↔ (0x1E00 &&& 0x0c01) = 0x0c00)
       ∧ (is_parity_ok 0x1E00 = true ↔ Nat.testBit 0x1E00 9 = !(xorDataBits 0x1E00))
       ∧ get_data_bits 0x1E00 = (0x1E00 >>> 1) &&& 255) :=
  ⟨by decide, framed13_props 0x1E00 (by decide)⟩

/-- C10: for every byte value B, the 13 logical bits emitted by
TapeEncoder::EncodeByte, assembled LSB-first into a 13-bit code z,
satisfy is_sync_ok z, is_parity_ok z, and get_data_bits z = B. -/
theorem encode_frame_roundtrip (B : Nat) (hB : B < 256) :
    is_sync_ok (bitsToNat (encodeByteBits B)) = true
    ∧ is_parity_ok (bitsToNat (encodeByteBits B)) = true
    ∧ get_data_bits (bitsToNat (encodeByteBits B)) = B := by
  revert B
  decide

/-- Witness for encode_frame_roundtrip at B = 0xA5. -/
theorem encode_frame_roundtrip_witness :
    (0xA5 < 256)
    ∧ (is_sync_ok (bitsToNat (encodeByteBits 0xA5)) = true
       ∧ is_parity_ok (bitsToNat (encodeByteBits 0xA5)) = true
       ∧ get_data_bits (bitsToNat (encodeByteBits 0xA5)) = 0xA5) :=
  ⟨by decide, encode_frame_roundtrip 0xA5 (by decide)⟩

end OricTape

namespace OricTape

/-!
Slow-format square wave (TapeEncoder::EncodeBit, slow branch) and the
demodulator carrier selection (Demodulator constructor).
-/

/-- Level of emission step i within a slow-format bit, before xor with
the entry polarity: the C expression `val ? !(i&1) : !(i&2)`. -/
def slowBitLevel (val : Bool) (i : Nat) : Bool :=
  if val then (i &&& 1) == 0 else (i &&& 2) == 0

/-- The 16 half-cycle emission slots of one slow-format bit
(TapeEncoder::EncodeBit calls EmitBit(y ^ polarity) for i = 0..15). -/
def encodeBitSlowLevels (val polarity : Bool) : List Bool :=
  List.ofFn fun i : Fin 16 => xor (slowBitLevel val i.val) polarity

/-- EmitBit switching rate in Hz: each EmitBit advances the cosine ramp
by RAMP_STEP of RAMP_LEN samples at ENCODER_RATE, i.e.
44100 * 48 / 441 = 4800 emission steps per second. -/
def emitRateHz : Nat := 44100 * 48 / 441

/-- Fundamental period of the slow-bit square wave, in emission steps:
`!(i&1)` has period 2, `!(i&2)` has period 4. -/
def slowBitPeriodSteps (val : Bool) : Nat :=
  if val then 2 else 4

/-- Square wave frequency of a slow-format bit in Hz. -/
def slowBitFreqHz (val : Bool) : Nat :=
  emitRateHz / slowBitPeriodSteps val

/-- Demodulation carrier in Hz, from the Demodulator constructor
`carrier_hz = f_ref_hz/(m_use_high_band ? 2:4)` with the reference rate
f_ref_hz = 4800 passed by DemodDecoder. -/
def carrierHz (use_high_band : Bool) : Nat :=
  4800 / (if use_high_band then 2 else 4)

/-- C8 counterexample: the claim says a '1' bit is encoded at
approximately 1200 Hz and a '0' bit at approximately 2400 Hz; in the
code the '1'-bit pattern toggles at every 4800 Hz emission step, giving
2400 Hz, and the '0'-bit pattern toggles every second step, giving
1200 Hz, so the claimed assignment is false. -/
theorem slow_format_freq_counterexample :
    slowBitLevel true 0 = true ∧ slowBitLevel true 1 = false
    ∧ slowBitLevel true 2 = true
    ∧ slowBitLevel false 0 = true ∧ slowBitLevel false 1 = true
    ∧ slowBitLevel false 2 = false ∧ slowBitLevel false 3 = false
    ∧ slowBitFreqHz true = 2400
    ∧ slowBitFreqHz false = 1200
    ∧ ¬(slowBitFreqHz true = 1200 ∧ slowBitFreqHz false = 2400) := by
  decide

/-- C8 amended: each slow-format bit is 16 half-cycle emission slots at
4800 Hz; within the emitted range the '1'-bit wave has period 2 steps
(2400 Hz) and flips at half period, the '0'-bit wave has period 4 steps
(1200 Hz) and flips at half period; correspondingly the demodulator's
2400 Hz high band is the '1'-bit carrier and its 1200 Hz low band is the
'0'-bit carrier. -/
theorem slow_format_freq (val polarity : Bool) :
    (encodeBitSlowLevels val polarity).length = 16
    ∧ emitRateHz = 4800
    ∧ (∀ i, i + 2 < 16 → slowBitLevel true (i + 2) = slowBitLevel true i)
    ∧ (∀ i, i + 1 < 16 → slowBitLevel true (i + 1) = !(slowBitLevel true i))
    ∧ (∀ i, i + 4 < 16 → slowBitLevel false (i + 4) = slowBitLevel false i)
    ∧ (∀ i, i + 2 < 16 → slowBitLevel false (i + 2) = !(slowBitLevel false i))
    ∧ slowBitFreqHz true = 2400
    ∧ slowBitFreqHz false = 1200
    ∧ slowBitFreqHz true = carrierHz true
    ∧ slowBitFreqHz false = carrierHz false := by
  refine ⟨by simp [encodeBitSlowLevels], by decide, ?_, ?_, ?_, ?_, by decide, by decide, by decide, by decide⟩
  all_goals
    intro i hi
    have hi' : i < 16 := by omega
    interval_cases i <;> first | decide | omega

/-- Witness for slow_format_freq: instantiate the inner bounded facts at
concrete indices for the '1' bit with polarity false. -/
theorem slow_format_freq_witness :
    slowBitLevel true (0 + 1) = !(slowBitLevel true 0)
    ∧ slowBitLevel false (0 + 2) = !(slowBitLevel false 0) :=
  ⟨(slow_format_freq true false).2.2.2.1 0 (by decide),
   (slow_format_freq true false).2.2.2.2.2.1 0 (by decide)⟩

end OricTape

namespace OricTape

/-!
Byte stream data model (DecodedByte.h) and the common back-end emission
code shared by DualDecoder::DecodeByte, XenonDecoder::DecodeByte and
DemodDecoder (fields from a 13-bit code z).  uint8_t is modelled as
Fin 256 and the double time stamp as an exact rational.
-/

structure DecodedByte where
  time : ℚ
  slow : Bool
  byte : Fin 256
  parity_error : Bool
  sync_error : Bool
deriving DecidableEq

/-- The DecodedByte fields produced by the decoder back-ends from a
13-bit code z: byte = get_data_bits(z), parity_error = !is_parity_ok(z),
sync_error = !is_sync_ok(z). -/
def mkDecodedByte (t : ℚ) (slow : Bool) (z : Nat) : DecodedByte where
  time := t
  slow := slow
  byte := ⟨get_data_bits z, Nat.lt_succ_of_le (Nat.and_le_right)⟩
  parity_error := !is_parity_ok z
  sync_error := !is_sync_ok z

/-- File extracted from tape (TapeFile.h). The payload is modelled as
the written prefix of the 64 KiB buffer. -/
structure TapeFile where
  header : List (Fin 256)
  start_addr : Nat
  end_addr : Nat
  len : Nat
  basic : Bool
  autorun : Bool
  slow : Bool
  name : List (Fin 256)
  payload : List (Fin 256)
  sync_errors : Nat
  parity_errors : Nat
  start_time : ℚ
  end_time : ℚ
deriving DecidableEq

/-- All-zero TapeFile, as left by memset in TapeParser::Reset. -/
def zeroFile : TapeFile where
  header := List.replicate 9 0
  start_addr := 0
  end_addr := 0
  len := 0
  basic := false
  autorun := false
  slow := false
  name := List.replicate 17 0
  payload := []
  sync_errors := 0
  parity_errors := 0
  start_time := 0
  end_time := 0

/-- Major scouting state of the parser (ST_SYNC/ST_HEADER/ST_NAME). -/
inductive SectionType where
  | stSync
  | stHeader
  | stName
deriving DecidableEq

/-- State of TapeParser (TapeParser.h), without the print buffer and
verbosity members, which only affect logging. -/
structure ParserState where
  section_type : SectionType
  section_offs : Nat
  slow : Bool
  consecutive_non_16 : Nat
  consecutive_bad_bytes : Nat
  scout_file : TapeFile
  payload_active : Bool
  payload_offs : Nat
  payload_file : TapeFile
deriving DecidableEq

/-- TapeParser::Reset. -/
def resetState : ParserState where
  section_type := .stSync
  section_offs := 0
  slow := false
  consecutive_non_16 := 100
  consecutive_bad_bytes := 100
  scout_file := zeroFile
  payload_active := false
  payload_offs := 0
  payload_file := zeroFile

/-- TapeParser::IsIdle. -/
def isIdle (s : ParserState) : Bool :=
  s.section_type == .stSync && !s.payload_active

/-- TapeParser::FlushPayload: truncate and output current file in
payload processing, padding missing bytes with 0xcd and counting one
sync error and one parity error per pad byte. -/
def flushPayload (s : ParserState) : ParserState × List TapeFile :=
  if s.payload_active = true then
    let missing := s.payload_file.len - s.payload_offs
    let f := { s.payload_file with
               payload := s.payload_file.payload ++ List.replicate missing 0xcd,
               sync_errors := s.payload_file.sync_errors + missing,
               parity_errors := s.payload_file.parity_errors + missing }
    ({ s with payload_file := f, payload_offs := s.payload_offs + missing,
              payload_active := false }, [f])
  else (s, [])

/-- TapeParser::Flush: FlushPayload followed by Reset. -/
def parserFlush (s : ParserState) : ParserState × List TapeFile :=
  (resetState, (flushPayload s).2)

/-- Error counting expression `b.sync_error` used at each accumulation
site of TapeParser::PutByte. -/
def countSyncErr (b : DecodedByte) : Nat :=
  if b.sync_error = true then 1 else 0

/-- Error counting expression `b.parity_error && !b.sync_error` used at
each accumulation site of TapeParser::PutByte. -/
def countParityErr (b : DecodedByte) : Nat :=
  if b.parity_error = true ∧ b.sync_error = false then 1 else 0

/-- Nominal byte duration in seconds (209/4800 slow, 32/4800 fast). -/
def nominalByteTime (slow : Bool) : ℚ :=
  if slow then 209/4800 else 32/4800

/-- PutByte stage 1: on a slow-flag change, truncate any ongoing file
(Flush) and adopt the new format flag. -/
def stageSlow (s : ParserState) (b : DecodedByte) : ParserState × List TapeFile :=
  if s.slow = b.slow then (s, [])
  else if isIdle s = false then
    ({ (parserFlush s).1 with slow := b.slow }, (parserFlush s).2)
  else ({ s with slow := b.slow }, [])

/-- PutByte stage 2: extend the end time of both files 1.5 nominal byte
durations past this byte. -/
def stageTime (s : ParserState) (b : DecodedByte) : ParserState :=
  let et := b.time + 3/2 * nominalByteTime b.slow
  { s with scout_file := { s.scout_file with end_time := et },
           payload_file := { s.payload_file with end_time := et } }

/-- PutByte stage 3: payload processing; store the byte, count errors in
mutually exclusive categories, and emit the file when the payload offset
reaches the declared length. -/
def stagePayload (s : ParserState) (b : DecodedByte) : ParserState × List TapeFile :=
  if s.payload_active = true then
    let pf := { s.payload_file with
                payload := s.payload_file.payload ++ [b.byte],
                sync_errors := s.payload_file.sync_errors + countSyncErr b,
                parity_errors := s.payload_file.parity_errors + countParityErr b }
    let s1 := { s with payload_file := pf, payload_offs := s.payload_offs + 1 }
    if s1.payload_offs = pf.len then ({ s1 with payload_active := false }, [pf])
    else (s1, [])
  else (s, [])

/-- PutByte stage 4: update the consecutive non-0x16 and consecutive bad
byte counters. -/
def stageCounters (s : ParserState) (b : DecodedByte) : ParserState :=
  { s with
    consecutive_non_16 := if b.byte ≠ 0x16 then s.consecutive_non_16 + 1 else 0,
    consecutive_bad_bytes :=
      if b.sync_error = true ∨ b.parity_error = true then s.consecutive_bad_bytes + 1 else 0 }

/-- End address: header bytes 4..5, high byte first. -/
def headerEndAddr (f : TapeFile) : Nat :=
  (f.header.getD 4 0).val <<< 8 ||| (f.header.getD 5 0).val

/-- Start address: header bytes 6..7, high byte first. -/
def headerStartAddr (f : TapeFile) : Nat :=
  (f.header.getD 6 0).val <<< 8 ||| (f.header.getD 7 0).val

/-- Payload length 1..65536, the C computation
`len = (endaddr-startaddr); len &= 0xffff; len += 1` modelled on Nat
(both addresses are below 65536, so the int mask is this Nat modulus). -/
def tapeLengthOf (endaddr startaddr : Nat) : Nat :=
  (endaddr + 65536 - startaddr) % 65536 + 1

/-- PutByte stage 5: the section state machine (sync scan, header,
name), including sync tolerance, header length computation, name
termination, and interruption of a previous payload by a new file. -/
def stageSection (s : ParserState) (b : DecodedByte) : ParserState × List TapeFile :=
  match s.section_type with
  | .stSync =>
    let s := if s.section_offs = 0
             then { s with scout_file := { s.scout_file with start_time := b.time } }
             else s
    if b.byte = 0x16 then
      ({ s with section_offs := s.section_offs + 1 }, [])
    else if b.byte = 0x24 ∧ 3 ≤ s.section_offs then
      ({ s with section_type := .stHeader, section_offs := 0,
                scout_file := { s.scout_file with sync_errors := 0, parity_errors := 0 } }, [])
    else if 3 ≤ s.section_offs ∧ s.payload_active = false
            ∧ (s.consecutive_non_16 < 8 ∨ s.consecutive_bad_bytes < 4) then
      ({ s with section_offs := s.section_offs + 1 }, [])
    else
      ({ s with section_offs := 0 }, [])
  | .stHeader =>
    let sf := { s.scout_file with
                header := s.scout_file.header.set s.section_offs b.byte,
                sync_errors := s.scout_file.sync_errors + countSyncErr b,
                parity_errors := s.scout_file.parity_errors + countParityErr b }
    let s1 := { s with scout_file := sf, section_offs := s.section_offs + 1 }
    if s1.section_offs = 9 then
      if sf.header.getD 2 0 = 0x00 ∨ sf.header.getD 2 0 = 0x80 then
        ({ s1 with section_type := .stName, section_offs := 0 }, [])
      else
        ({ s1 with section_type := .stSync, section_offs := 0 }, [])
    else (s1, [])
  | .stName =>
    let sf := { s.scout_file with
                name := s.scout_file.name.set s.section_offs b.byte,
                sync_errors := s.scout_file.sync_errors + countSyncErr b,
                parity_errors := s.scout_file.parity_errors + countParityErr b }
    let s1 := { s with scout_file := sf, section_offs := s.section_offs + 1 }
    if b.byte = 0 then
      let endaddr := headerEndAddr sf
      let startaddr := headerStartAddr sf
      let flen := tapeLengthOf endaddr startaddr
      let sf2 := { sf with
                   start_addr := startaddr,
                   end_addr := endaddr,
                   len := flen,
                   autorun := sf.header.getD 3 0 != 0,
                   basic := sf.header.getD 2 0 == 0x00,
                   slow := b.slow }
      let s2 := { s1 with scout_file := sf2 }
      ({ (flushPayload s2).1 with payload_active := true, payload_offs := 0,
                                  payload_file := sf2,
                                  section_type := .stSync, section_offs := 0 },
       (flushPayload s2).2)
    else if s1.section_offs = 17 then
      ({ s1 with section_type := .stSync, section_offs := 0 }, [])
    else (s1, [])

/-- TapeParser::PutByte: main entry point, process one byte. -/
def putByte (s : ParserState) (b : DecodedByte) : ParserState × List TapeFile :=
  let a := stageSlow s b
  let sB := stageTime a.1 b
  let c := stagePayload sB b
  let sD := stageCounters c.1 b
  let e := stageSection sD b
  (e.1, a.2 ++ c.2 ++ e.2)

/-- Process a list of bytes, collecting emitted files in order. -/
def putBytes (s : ParserState) : List DecodedByte → ParserState × List TapeFile
  | [] => (s, [])
  | b :: rest =>
    ((putBytes (putByte s b).1 rest).1,
     (putByte s b).2 ++ (putBytes (putByte s b).1 rest).2)

/-- Parse a whole byte stream from the initial state, with the final
Flush performed at end of tape (TapeDecoder::ReadFile). -/
def parseTape (bs : List DecodedByte) : ParserState × List TapeFile :=
  ((parserFlush (putBytes resetState bs).1).1,
   (putBytes resetState bs).2 ++ (parserFlush (putBytes resetState bs).1).2)

end OricTape

namespace OricTape

/-- Well-formedness of an emitted TapeFile: exactly its declared length
of payload bytes, and a zero-terminated 17-byte name. -/
def fileOk (f : TapeFile) : Prop :=
  f.payload.length = f.len ∧ f.name.length = 17 ∧ (0 : Fin 256) ∈ f.name

/-- Parser state invariant maintained by PutByte from the reset state. -/
def Inv (s : ParserState) : Prop :=
  (s.payload_active = true →
     s.payload_file.payload.length = s.payload_offs
     ∧ s.payload_offs < s.payload_file.len
     ∧ s.payload_file.name.length = 17
     ∧ (0 : Fin 256) ∈ s.payload_file.name)
  ∧ (s.section_type = .stName → s.section_offs < 17)
  ∧ s.scout_file.name.length = 17
  ∧ s.scout_file.payload = []

lemma resetState_inv : Inv resetState := by
  refine ⟨?_, ?_, ?_, ?_⟩
  · intro h; simp [resetState] at h
  · intro h; simp [resetState] at h
  · simp [resetState, zeroFile]
  · simp [resetState, zeroFile]

lemma mem_set_self (l : List (Fin 256)) (n : Nat) (h : n < l.length) :
    (0 : Fin 256) ∈ l.set n 0 := by
  have h2 : n < (l.set n 0).length := by simpa using h
  have h3 := List.getElem_mem h2
  rwa [List.getElem_set_self] at h3

lemma flushPayload_files (s : ParserState)
    (hPay : s.payload_active = true →
      s.payload_file.payload.length = s.payload_offs
      ∧ s.payload_offs < s.payload_file.len
      ∧ s.payload_file.name.length = 17
      ∧ (0 : Fin 256) ∈ s.payload_file.name) :
    ∀ f ∈ (flushPayload s).2, fileOk f := by
  intro f hf
  unfold flushPayload at hf
  by_cases hp : s.payload_active = true
  · obtain ⟨e1, e2, e3, e4⟩ := hPay hp
    simp only [hp, if_true, List.mem_singleton] at hf
    subst hf
    refine ⟨?_, ?_, ?_⟩
    · simp only [List.length_append, List.length_replicate, e1]
      omega
    · simpa using e3
    · simpa using e4
  · simp [hp] at hf

lemma flushPayload_state (s : ParserState) :
    (flushPayload s).1.payload_active = false
    ∧ (flushPayload s).1.section_type = s.section_type
    ∧ (flushPayload s).1.section_offs = s.section_offs
    ∧ (flushPayload s).1.scout_file = s.scout_file := by
  unfold flushPayload
  by_cases hp : s.payload_active = true
  · simp [hp]
  · simp only [hp, if_false, if_neg]
    simp at hp
    simp [hp]

lemma flushPayload_inv (s : ParserState) (h : Inv s) :
    Inv (flushPayload s).1 ∧ ∀ f ∈ (flushPayload s).2, fileOk f := by
  obtain ⟨h1, h2, h3, h4⟩ := h
  refine ⟨?_, flushPayload_files s h1⟩
  obtain ⟨f1, f2, f3, f4⟩ := flushPayload_state s
  refine ⟨?_, ?_, ?_, ?_⟩
  · intro hc; rw [f1] at hc; exact absurd hc (by simp)
  · intro hc; rw [f2] at hc; rw [f3]; exact h2 hc
  · rw [f4]; exact h3
  · rw [f4]; exact h4

end OricTape

namespace OricTape

lemma stageSlow_inv (s : ParserState) (b : DecodedByte) (h : Inv s) :
    Inv (stageSlow s b).1 ∧ ∀ f ∈ (stageSlow s b).2, fileOk f := by
  unfold stageSlow
  by_cases he : s.slow = b.slow
  · simp only [he, if_true]
    exact ⟨h, by simp⟩
  · simp only [he, if_false]
    by_cases hi : isIdle s = false
    · simp only [hi, if_true]
      refine ⟨?_, ?_⟩
      · have hr : Inv (parserFlush s).1 := by
          show Inv resetState
          exact resetState_inv
        exact hr
      · intro f hf
        exact flushPayload_files s h.1 f hf
    · simp only [hi, if_false]
      exact ⟨h, by simp⟩

lemma stageTime_inv (s : ParserState) (b : DecodedByte) (h : Inv s) :
    Inv (stageTime s b) :=
  h

lemma stageCounters_inv (s : ParserState) (b : DecodedByte) (h : Inv s) :
    Inv (stageCounters s b) :=
  h

lemma stagePayload_inv (s : ParserState) (b : DecodedByte) (h : Inv s) :
    Inv (stagePayload s b).1 ∧ ∀ f ∈ (stagePayload s b).2, fileOk f := by
  obtain ⟨h1, h2, h3, h4⟩ := h
  unfold stagePayload
  by_cases hp : s.payload_active = true
  · obtain ⟨e1, e2, e3, e4⟩ := h1 hp
    rw [if_pos hp]
    dsimp only
    by_cases hlen : s.payload_offs + 1 = s.payload_file.len
    · rw [if_pos hlen]
      refine ⟨⟨?_, h2, h3, h4⟩, ?_⟩
      · intro hc; simp at hc
      · intro f hf
        simp only [List.mem_singleton] at hf
        subst hf
        refine ⟨?_, e3, e4⟩
        dsimp only
        rw [List.length_append, e1]
        simpa using hlen
    · rw [if_neg hlen]
      refine ⟨⟨?_, h2, h3, h4⟩, by simp⟩
      intro _
      dsimp only
      refine ⟨?_, ?_, e3, e4⟩
      · rw [List.length_append, e1]
        simp
      · omega
  · rw [if_neg hp]
    exact ⟨⟨h1, h2, h3, h4⟩, by simp⟩

end OricTape

namespace OricTape

lemma stageSection_inv (s : ParserState) (b : DecodedByte) (h : Inv s) :
    Inv (stageSection s b).1 ∧ ∀ f ∈ (stageSection s b).2, fileOk f := by
  obtain ⟨h1, h2, h3, h4⟩ := h
  unfold stageSection
  cases hsec : s.section_type with
  | stSync =>
    dsimp only
    by_cases h0 : s.section_offs = 0 <;>
      [rw [if_pos h0]; rw [if_neg h0]] <;>
    · split_ifs <;>
        refine ⟨⟨fun hc => h1 hc, fun hc => ?_, h3, h4⟩, by simp⟩ <;>
      exact absurd hc (by simp [hsec])
  | stHeader =>
    dsimp only
    split_ifs
    · exact ⟨⟨fun hc => h1 hc, fun _ => by show (0:Nat) < 17; omega, h3, h4⟩, by simp⟩
    · exact ⟨⟨fun hc => h1 hc, fun hc => absurd hc (by simp), h3, h4⟩, by simp⟩
    · exact ⟨⟨fun hc => h1 hc, fun hc => absurd hc (by simp [hsec]), h3, h4⟩, by simp⟩
  | stName =>
    have hoffs : s.section_offs < 17 := h2 hsec
    dsimp only
    by_cases hz : b.byte = 0
    · rw [if_pos hz]
      refine ⟨?_, ?_⟩
      · refine ⟨?_, fun hc => by simp at hc, ?_, ?_⟩
        · intro _
          dsimp only
          refine ⟨?_, ?_, ?_, ?_⟩
          · rw [h4]; rfl
          · dsimp only [tapeLengthOf]; omega
          · simp [List.length_set, h3]
          · rw [hz]
            exact mem_set_self _ _ (by rw [h3]; exact hoffs)
        · dsimp only
          rw [(flushPayload_state _).2.2.2]
          simp [List.length_set, h3]
        · dsimp only
          rw [(flushPayload_state _).2.2.2]
          exact h4
      · intro f hf
        refine flushPayload_files _ ?_ f hf
        intro hc
        exact h1 hc
    · rw [if_neg hz]
      by_cases h17 : s.section_offs + 1 = 17
      · rw [if_pos h17]
        refine ⟨⟨fun hc => h1 hc, fun hc => by simp at hc, ?_, h4⟩, by simp⟩
        simp [List.length_set, h3]
      · rw [if_neg h17]
        refine ⟨⟨fun hc => h1 hc, fun hc => ?_, ?_, h4⟩, by simp⟩
        · dsimp only
          omega
        · simp [List.length_set, h3]

end OricTape

namespace OricTape

lemma putByte_inv (s : ParserState) (b : DecodedByte) (h : Inv s) :
    Inv (putByte s b).1 ∧ ∀ f ∈ (putByte s b).2, fileOk f := by
  have hA := stageSlow_inv s b h
  have hB := stageTime_inv (stageSlow s b).1 b hA.1
  have hC := stagePayload_inv (stageTime (stageSlow s b).1 b) b hB
  have hD := stageCounters_inv (stagePayload (stageTime (stageSlow s b).1 b) b).1 b hC.1
  have hE := stageSection_inv
    (stageCounters (stagePayload (stageTime (stageSlow s b).1 b) b).1 b) b hD
  refine ⟨hE.1, ?_⟩
  intro f hf
  have hf2 : f ∈ (stageSlow s b).2
      ++ (stagePayload (stageTime (stageSlow s b).1 b) b).2
      ++ (stageSection (stageCounters (stagePayload (stageTime (stageSlow s b).1 b) b).1 b) b).2 := hf
  rcases List.mem_append.1 hf2 with hf3 | hf3
  · rcases List.mem_append.1 hf3 with hf4 | hf4
    · exact hA.2 f hf4
    · exact hC.2 f hf4
  · exact hE.2 f hf3

lemma putBytes_inv (bs : List DecodedByte) :
    ∀ s : ParserState, Inv s →
      Inv (putBytes s bs).1 ∧ ∀ f ∈ (putBytes s bs).2, fileOk f := by
  induction bs with
  | nil => exact fun s h => ⟨h, by intro f hf; simp [putBytes] at hf⟩
  | cons b rest ih =>
    intro s h
    have h1 := putByte_inv s b h
    have h2 := ih (putByte s b).1 h1.1
    refine ⟨h2.1, ?_⟩
    intro f hf
    have hf2 : f ∈ (putByte s b).2 ++ (putBytes (putByte s b).1 rest).2 := hf
    rcases List.mem_append.1 hf2 with hf3 | hf3
    · exact h1.2 f hf3
    · exact h2.2 f hf3

/-- Every file produced by a full parse of a byte stream, including the
final flush, is well formed. -/
lemma parseTape_fileOk (bs : List DecodedByte) :
    ∀ f ∈ (parseTape bs).2, fileOk f := by
  intro f hf
  have h := putBytes_inv bs resetState resetState_inv
  have hf2 : f ∈ (putBytes resetState bs).2
      ++ (parserFlush (putBytes resetState bs).1).2 := hf
  rcases List.mem_append.1 hf2 with hf3 | hf3
  · exact h.2 f hf3
  · exact flushPayload_files _ h.1.1 f hf3

end OricTape

namespace OricTape

lemma headerEndAddr_lt (f : TapeFile) : headerEndAddr f < 65536 := by
  unfold headerEndAddr
  have h1 : ((f.header.getD 4 0).val <<< 8) = (f.header.getD 4 0).val * 256 := by
    rw [Nat.shiftLeft_eq]
  have h2 : (f.header.getD 4 0).val < 256 := (f.header.getD 4 0).isLt
  have h3 : (f.header.getD 5 0).val < 256 := (f.header.getD 5 0).isLt
  have h4 : (f.header.getD 4 0).val <<< 8 ||| (f.header.getD 5 0).val < 2 ^ 16 :=
    Nat.or_lt_two_pow (by omega) (by omega)
  omega

lemma headerStartAddr_lt (f : TapeFile) : headerStartAddr f < 65536 := by
  unfold headerStartAddr
  have h1 : ((f.header.getD 6 0).val <<< 8) = (f.header.getD 6 0).val * 256 := by
    rw [Nat.shiftLeft_eq]
  have h2 : (f.header.getD 6 0).val < 256 := (f.header.getD 6 0).isLt
  have h3 : (f.header.getD 7 0).val < 256 := (f.header.getD 7 0).isLt
  have h4 : (f.header.getD 6 0).val <<< 8 ||| (f.header.getD 7 0).val < 2 ^ 16 :=
    Nat.or_lt_two_pow (by omega) (by omega)
  omega

lemma tapeLengthOf_facts (e a : Nat) (hE : e < 65536) (hA : a < 65536) :
    tapeLengthOf e a = (e + 65536 - a) % 65536 + 1
    ∧ ((tapeLengthOf e a : Int) = ((e : Int) - a) % 65536 + 1)
    ∧ 1 ≤ tapeLengthOf e a
    ∧ tapeLengthOf e a ≤ 65536
    ∧ (e = a → tapeLengthOf e a = 1)
    ∧ (a = (e + 1) % 65536 → tapeLengthOf e a = 65536) := by
  unfold tapeLengthOf
  refine ⟨rfl, by omega, by omega, by omega, by omega, by omega⟩

/-- C4: when a byte completes the file name, the new payload file's
length is ((end_addr - start_addr) mod 65536) + 1 with end_addr from
header bytes 4..5 and start_addr from header bytes 6..7 (high byte
first); the length is always in 1..65536, equal addresses give length 1,
and end_addr = start_addr - 1 (mod 65536) gives length 65536. -/
theorem header_length_semantics (s : ParserState) (b : DecodedByte)
    (hsec : s.section_type = .stName) (hslow : s.slow = b.slow)
    (hz : b.byte = 0) :
    (putByte s b).1.payload_file.end_addr = headerEndAddr s.scout_file
    ∧ (putByte s b).1.payload_file.start_addr = headerStartAddr s.scout_file
    ∧ (putByte s b).1.payload_file.len
        = (headerEndAddr s.scout_file + 65536 - headerStartAddr s.scout_file) % 65536 + 1
    ∧ ((putByte s b).1.payload_file.len : Int)
        = ((headerEndAddr s.scout_file : Int) - (headerStartAddr s.scout_file : Int)) % 65536 + 1
    ∧ 1 ≤ (putByte s b).1.payload_file.len
    ∧ (putByte s b).1.payload_file.len ≤ 65536
    ∧ (headerEndAddr s.scout_file = headerStartAddr s.scout_file →
        (putByte s b).1.payload_file.len = 1)
    ∧ (headerStartAddr s.scout_file = (headerEndAddr s.scout_file + 1) % 65536 →
        (putByte s b).1.payload_file.len = 65536) := by
  have hE := headerEndAddr_lt s.scout_file
  have hA := headerStartAddr_lt s.scout_file
  obtain ⟨f1, f2, f3, f4, f5, f6⟩ :=
    tapeLengthOf_facts (headerEndAddr s.scout_file) (headerStartAddr s.scout_file) hE hA
  obtain ⟨st, so, sl, n16, bad, sf0, pa, po, pf⟩ := s
  simp only at hsec hslow f1 f2 f3 f4 f5 f6
  subst hsec
  subst hslow
  unfold putByte stageSlow stageTime stagePayload stageCounters stageSection
  rw [if_pos rfl]
  try dsimp only
  by_cases hpa : pa = true
  · rw [if_pos hpa]
    try dsimp only
    by_cases hlen : po + 1 = pf.len
    · rw [if_pos hlen]
      try dsimp only
      rw [if_pos hz]
      exact ⟨rfl, rfl, f1, f2, f3, f4, f5, f6⟩
    · rw [if_neg hlen]
      try dsimp only
      rw [if_pos hz]
      exact ⟨rfl, rfl, f1, f2, f3, f4, f5, f6⟩
  · rw [if_neg hpa]
    try dsimp only
    rw [if_pos hz]
    exact ⟨rfl, rfl, f1, f2, f3, f4, f5, f6⟩

end OricTape

namespace OricTape

/-- An error-free fast-format byte at time 0 with the given value. -/
def cleanByte (v : Fin 256) : DecodedByte :=
  { time := 0, slow := false, byte := v, parity_error := false, sync_error := false }

lemma sync_xany :
    ∀ X : Fin 256,
      (putBytes resetState
        [cleanByte 0x16, cleanByte 0x16, cleanByte 0x16, cleanByte X,
         cleanByte 0x24]).1.section_type = .stHeader := by
  decide

/-- C5: in the sync scan with at least 3 leading sync bytes, no active
payload, and a byte that is neither 0x16 nor a sync-completing 0x24, the
byte is tolerated (the sync count is incremented, not reset) when fewer
than 8 consecutive non-0x16 bytes and fewer than 4 consecutive bad bytes
have accumulated (counting this byte); in particular an error-free
sequence 0x16 0x16 0x16 X 0x24 reaches the header state for any X. -/
theorem sync_tolerance (s : ParserState) (b : DecodedByte)
    (hsec : s.section_type = .stSync) (hoffs : 3 ≤ s.section_offs)
    (hpa : s.payload_active = false) (hslow : s.slow = b.slow)
    (h16 : ¬b.byte = 0x16) (h24 : ¬b.byte = 0x24)
    (hn16 : s.consecutive_non_16 + 1 < 8)
    (hbad : (if b.sync_error = true ∨ b.parity_error = true
             then s.consecutive_bad_bytes + 1 else 0) < 4) :
    (putByte s b).1.section_type = .stSync
    ∧ (putByte s b).1.section_offs = s.section_offs + 1
    ∧ (∀ X : Fin 256,
        (putBytes resetState
          [cleanByte 0x16, cleanByte 0x16, cleanByte 0x16, cleanByte X,
           cleanByte 0x24]).1.section_type = .stHeader) := by
  refine ?_
  obtain ⟨st, so, sl, n16, bad, sf0, pa, po, pf⟩ := s
  simp only at hsec hoffs hpa hslow hn16 hbad
  subst hsec
  subst hpa
  subst hslow
  unfold putByte stageSlow stageTime stagePayload stageCounters stageSection
  rw [if_pos rfl]
  try dsimp only
  rw [if_neg (by simp)]
  try dsimp only
  rw [if_neg (by omega : ¬so = 0)]
  rw [if_neg h16, if_neg (by simp [h24]), if_pos]
  · exact ⟨rfl, rfl, sync_xany⟩
  · refine ⟨hoffs, rfl, Or.inl ?_⟩
    rw [if_pos h16]
    exact hn16

/-- C2 counterexample: a decoder back-end emission from the all-zero
13-bit frame carries both sync_error and parity_error. -/
theorem backend_both_flags_counterexample :
    (mkDecodedByte 0 false 0).sync_error = true
    ∧ (mkDecodedByte 0 false 0).parity_error = true := by
  decide

/-- C2 (amended): a back-end may emit a DecodedByte with both error
flags set; mutual exclusion is applied by the parser when counting: per
payload byte sync_errors grows by `b.sync_error` and parity_errors by
`b.parity_error && !b.sync_error`, so the two counters never both grow
on one byte. -/
theorem error_counting_exclusive (s : ParserState) (b : DecodedByte)
    (hpa : s.payload_active = true) (hsec : s.section_type = .stSync)
    (hslow : s.slow = b.slow) :
    (putByte s b).1.payload_file.sync_errors
      = s.payload_file.sync_errors + countSyncErr b
    ∧ (putByte s b).1.payload_file.parity_errors
      = s.payload_file.parity_errors + countParityErr b
    ∧ countSyncErr b + countParityErr b ≤ 1 := by
  have hcnt : countSyncErr b + countParityErr b ≤ 1 := by
    unfold countSyncErr countParityErr
    by_cases hs : b.sync_error = true <;> by_cases hp : b.parity_error = true <;>
      simp [hs, hp]
  obtain ⟨st, so, sl, n16, bad, sf0, pa, po, pf⟩ := s
  simp only at hpa hsec hslow
  subst hpa
  subst hsec
  subst hslow
  unfold putByte stageSlow stageTime stagePayload stageCounters stageSection
  rw [if_pos rfl]
  try dsimp only
  rw [if_pos rfl]
  try dsimp only
  by_cases hlen : po + 1 = pf.len
  · rw [if_pos hlen]
    try dsimp only
    split_ifs <;> exact ⟨rfl, rfl, hcnt⟩
  · rw [if_neg hlen]
    try dsimp only
    split_ifs <;> exact ⟨rfl, rfl, hcnt⟩

end OricTape

namespace OricTape

/-- Error-free stream: sync, all-zero BASIC header with equal addresses
(length 1), a 16-character name terminated at index 16, one payload
byte. -/
def demoName16 : List DecodedByte :=
  ([0x16, 0x16, 0x16, 0x24, 0, 0, 0, 0, 0, 0, 0, 0, 0]
    ++ List.replicate 16 (0x41 : Fin 256) ++ [0, 0x99]).map cleanByte

/-- Error-free stream: a first file attempt whose 17 non-zero name bytes
are rejected (leaving a stale non-zero guard byte in the scout name
buffer), then a complete one-byte file with the short name X. -/
def demoStale : List DecodedByte :=
  ([0x16, 0x16, 0x16, 0x24, 0, 0, 0, 0, 0, 0, 0, 0, 0]
    ++ List.replicate 17 (0x42 : Fin 256)
    ++ [0x16, 0x16, 0x16, 0x24, 0, 0, 0, 0, 0, 0, 0, 0, 0, 0x58, 0, 0x99]).map cleanByte

/-- A parser state with an active 3-byte payload, none received yet. -/
def demoActiveState : ParserState :=
  { resetState with
    payload_active := true,
    payload_offs := 0,
    payload_file := { zeroFile with len := 3 } }

lemma headD_mem (l : List TapeFile) (d : TapeFile) (h : ¬l = []) :
    l.headD d ∈ l := by
  cases l with
  | nil => exact absurd rfl h
  | cons x xs => simp

/-- C6 counterexample: the emitted file of demoStale has a non-zero
byte at name index 16 (stale guard byte), and the emitted file of
demoName16 has its first zero at name index 16, not before it. -/
theorem emitted_name_counterexample :
    ((parseTape demoStale).2.length = 1
     ∧ ¬((parseTape demoStale).2.headD zeroFile).name.getD 16 0 = 0)
    ∧ ((parseTape demoName16).2.length = 1
       ∧ ((parseTape demoName16).2.headD zeroFile).name.findIdx
           (fun c => c == 0) = 16) := by
  decide

/-- C6 (amended): every emitted TapeFile has a 17-byte name buffer
containing a zero byte, i.e. the name is zero-terminated at an index of
at most 16; a file whose name is never zero-terminated within the
buffer is rejected and not emitted. -/
theorem emitted_name_terminated (bs : List DecodedByte) (f : TapeFile)
    (hf : f ∈ (parseTape bs).2) :
    f.name.length = 17 ∧ (0 : Fin 256) ∈ f.name :=
  ⟨(parseTape_fileOk bs f hf).2.1, (parseTape_fileOk bs f hf).2.2⟩

/-- Witness for emitted_name_terminated on the demoName16 stream. -/
theorem emitted_name_terminated_witness :
    ((parseTape demoName16).2.headD zeroFile).name.length = 17
    ∧ (0 : Fin 256) ∈ ((parseTape demoName16).2.headD zeroFile).name :=
  emitted_name_terminated demoName16 _ (headD_mem _ _ (by decide))

/-- C7: every emitted TapeFile carries exactly its declared length of
payload bytes; during payload processing a file is emitted exactly when
the offset reaches the length; and a truncated payload is padded with
0xcd bytes, each counted as one sync error and one parity error, and the
padded file is emitted. -/
theorem emitted_length_exact :
    (∀ bs : List DecodedByte, ∀ f ∈ (parseTape bs).2, f.payload.length = f.len)
    ∧ (∀ s : ParserState, ∀ b : DecodedByte, s.payload_active = true →
        ((stagePayload s b).2 ≠ [] ↔ s.payload_offs + 1 = s.payload_file.len))
    ∧ (∀ s : ParserState, s.payload_active = true →
        (flushPayload s).2
          = [{ s.payload_file with
               payload := s.payload_file.payload
                 ++ List.replicate (s.payload_file.len - s.payload_offs) 0xcd,
               sync_errors := s.payload_file.sync_errors
                 + (s.payload_file.len - s.payload_offs),
               parity_errors := s.payload_file.parity_errors
                 + (s.payload_file.len - s.payload_offs) }]
        ∧ (flushPayload s).1.payload_active = false) := by
  refine ⟨fun bs f hf => (parseTape_fileOk bs f hf).1, ?_, ?_⟩
  · intro s b hpa
    unfold stagePayload
    rw [if_pos hpa]
    try dsimp only
    by_cases hlen : s.payload_offs + 1 = s.payload_file.len
    · rw [if_pos hlen]
      simp [hlen]
    · rw [if_neg hlen]
      simp [hlen]
  · intro s hpa
    unfold flushPayload
    rw [if_pos hpa]
    exact ⟨rfl, rfl⟩

/-- Witness for emitted_length_exact: the demoName16 file has length 1
with exactly one payload byte, and flushing demoActiveState truncates. -/
theorem emitted_length_exact_witness :
    (((parseTape demoName16).2.headD zeroFile).payload.length
      = ((parseTape demoName16).2.headD zeroFile).len)
    ∧ ((stagePayload demoActiveState (cleanByte 0x99)).2 ≠ []
        ↔ demoActiveState.payload_offs + 1 = demoActiveState.payload_file.len)
    ∧ (flushPayload demoActiveState).1.payload_active = false :=
  ⟨emitted_length_exact.1 demoName16 _ (headD_mem _ _ (by decide)),
   emitted_length_exact.2.1 demoActiveState (cleanByte 0x99) (by decide),
   (emitted_length_exact.2.2 demoActiveState (by decide)).2⟩

/-- Witness for sync_tolerance: a tolerated byte 0x00 after three 0x16
bytes. -/
theorem sync_tolerance_witness :
    (putByte { resetState with section_offs := 3, consecutive_non_16 := 0 }
        (cleanByte 0x00)).1.section_type = .stSync
    ∧ (putByte { resetState with section_offs := 3, consecutive_non_16 := 0 }
        (cleanByte 0x00)).1.section_offs
      = ({ resetState with section_offs := 3, consecutive_non_16 := 0 }
          : ParserState).section_offs + 1 :=
  ⟨(sync_tolerance _ (cleanByte 0x00) (by decide) (by decide) (by decide)
      (by decide) (by decide) (by decide) (by decide) (by decide)).1,
   (sync_tolerance _ (cleanByte 0x00) (by decide) (by decide) (by decide)
      (by decide) (by decide) (by decide) (by decide) (by decide)).2.1⟩

/-- Witness for error_counting_exclusive at a state with an active
payload and a byte with both error flags set. -/
theorem error_counting_exclusive_witness :
    (putByte demoActiveState
        { cleanByte 0x10 with sync_error := true, parity_error := true }
      ).1.payload_file.sync_errors
      = demoActiveState.payload_file.sync_errors
        + countSyncErr { cleanByte 0x10 with sync_error := true, parity_error := true }
    ∧ countSyncErr { cleanByte 0x10 with sync_error := true, parity_error := true }
      + countParityErr { cleanByte 0x10 with sync_error := true, parity_error := true } ≤ 1 :=
  ⟨(error_counting_exclusive demoActiveState _ (by decide) (by decide) (by decide)).1,
   (error_counting_exclusive demoActiveState _ (by decide) (by decide) (by decide)).2.2⟩

/-- Witness for header_length_semantics: completing a name over a header
with end_addr = 0x1234 and start_addr = 0x1233 gives length 2. -/
theorem header_length_semantics_witness :
    1 ≤ (putByte
      { resetState with
        section_type := .stName,
        scout_file := { zeroFile with
                        header := [0, 0, 0, 0, 0x12, 0x34, 0x12, 0x33, 0] } }
      (cleanByte 0)).1.payload_file.len
    ∧ (putByte
      { resetState with
        section_type := .stName,
        scout_file := { zeroFile with
                        header := [0, 0, 0, 0, 0x12, 0x34, 0x12, 0x33, 0] } }
      (cleanByte 0)).1.payload_file.len ≤ 65536 :=
  ⟨(header_length_semantics _ _ (by decide) (by decide) (by decide)).2.2.2.2.1,
   (header_length_semantics _ _ (by decide) (by decide) (by decide)).2.2.2.2.2.1⟩

end OricTape

namespace OricTape

/-!
TapeDecoder (TapeDecoder.cpp): the two-stream merger ReadByte with its
peek buffers, format auto-detection and parser feeding.  The peek buffer
plus the bytes a back-end will still produce are modelled as the lists
bs0 and bs1.
-/

/-- State of TapeDecoder: remaining back-end bytes, format selection,
parser, and files captured from OnFile. -/
structure DecoderState where
  bs0 : List DecodedByte
  bs1 : List DecodedByte
  select_fast : Bool
  select_slow : Bool
  parser : ParserState
  files : List TapeFile
deriving DecidableEq

/-- Take the next byte: backend0 is used when it has a byte and either
backend1 has none or backend0's byte has the earlier (or equal) time. -/
def pickByte (s : DecoderState) : Option (DecodedByte × DecoderState) :=
  match s.bs0, s.bs1 with
  | [], [] => none
  | b0 :: t0, [] => some (b0, { s with bs0 := t0 })
  | [], b1 :: t1 => some (b1, { s with bs1 := t1 })
  | b0 :: t0, b1 :: t1 =>
    if b0.time ≤ b1.time then some (b0, { s with bs0 := t0 })
    else some (b1, { s with bs1 := t1 })

/-- Detect sync, perform mode switch: on a clean 0x16 while the parser
is idle, select the byte's format. -/
def autoDetect (s : DecoderState) (b : DecodedByte) : DecoderState :=
  if b.byte = 0x16 ∧ b.sync_error = false ∧ b.parity_error = false
      ∧ isIdle s.parser = true then
    { s with select_fast := !b.slow, select_slow := b.slow }
  else s

/-- One iteration of the ReadByte while loop: take the earliest byte,
apply the auto-detect switch, and if the byte's format is selected feed
it to the parser; it is returned unless it carries an error while the
parser was idle. -/
def stepOnce (s : DecoderState) : Option (Option DecodedByte × DecoderState) :=
  match pickByte s with
  | none => none
  | some (b, s1) =>
    let idle := isIdle s1.parser
    let s2 := autoDetect s1 b
    if (if b.slow then s2.select_slow else s2.select_fast) = true then
      let s3 := { s2 with parser := (putByte s2.parser b).1,
                          files := s2.files ++ (putByte s2.parser b).2 }
      if (b.sync_error = false ∧ b.parity_error = false) ∨ idle = false then
        some (some b, s3)
      else some (none, s3)
    else some (none, s2)

/-- Total number of back-end bytes still to consume. -/
def decFuel (s : DecoderState) : Nat := s.bs0.length + s.bs1.length

/-- The ReadByte loop with explicit fuel; each iteration consumes one
back-end byte, so decFuel s fuel suffices. -/
def readByteFuel : Nat → DecoderState → Option (DecodedByte × DecoderState)
  | 0, _ => none
  | fuel+1, s =>
    match stepOnce s with
    | none => none
    | some (some b, s1) => some (b, s1)
    | some (none, s1) => readByteFuel fuel s1

/-- TapeDecoder::ReadByte: retrieve one byte, weaving together up to two
streams; none at end of tape. -/
def readByte (s : DecoderState) : Option (DecodedByte × DecoderState) :=
  readByteFuel (decFuel s) s

/-- All bytes returned by successive ReadByte calls, with fuel. -/
def readAllFuel : Nat → DecoderState → List DecodedByte
  | 0, _ => []
  | fuel+1, s =>
    match readByte s with
    | none => []
    | some (b, s1) => b :: readAllFuel fuel s1

/-- All bytes returned by successive ReadByte calls until end of tape. -/
def readAll (s : DecoderState) : List DecodedByte :=
  readAllFuel (decFuel s) s

/-- Non-decreasing time stamps along a byte list. -/
def sortedByTime (l : List DecodedByte) : Prop :=
  l.Pairwise (fun x y => x.time ≤ y.time)

/-- Membership in either remaining back-end stream. -/
def streamsMem (x : DecodedByte) (s : DecoderState) : Prop :=
  x ∈ s.bs0 ∨ x ∈ s.bs1

end OricTape

namespace OricTape

lemma pickByte_spec (s : DecoderState) (b : DecodedByte) (s1 : DecoderState)
    (h : pickByte s = some (b, s1)) :
    decFuel s = decFuel s1 + 1
    ∧ (∀ x, streamsMem x s1 → streamsMem x s)
    ∧ streamsMem b s
    ∧ s1.parser = s.parser
    ∧ (sortedByTime s.bs0 → sortedByTime s.bs1 →
        sortedByTime s1.bs0 ∧ sortedByTime s1.bs1
        ∧ ∀ x, streamsMem x s1 → b.time ≤ x.time) := by
  obtain ⟨bs0, bs1, sf, ss, pr, fl⟩ := s
  rcases bs0 with _ | ⟨b0, t0⟩ <;> rcases bs1 with _ | ⟨b1, t1⟩
  · simp [pickByte] at h
  · simp only [pickByte, Option.some_inj, Prod.mk.injEq] at h
    obtain ⟨hb, hs⟩ := h
    subst hb
    subst hs
    refine ⟨by simp only [decFuel, List.length_cons, List.length_nil] <;> omega, ?_, Or.inr (List.mem_cons_self _ _), rfl, ?_⟩
    · intro x hx
      rcases hx with hx | hx
      · simp at hx
      · exact Or.inr (List.mem_cons_of_mem _ hx)
    · intro hs0 hs1
      simp only [sortedByTime, List.pairwise_cons] at hs1
      refine ⟨by simp [sortedByTime], hs1.2, ?_⟩
      intro x hx
      rcases hx with hx | hx
      · simp at hx
      · exact hs1.1 x hx
  · simp only [pickByte, Option.some_inj, Prod.mk.injEq] at h
    obtain ⟨hb, hs⟩ := h
    subst hb
    subst hs
    refine ⟨by simp only [decFuel, List.length_cons, List.length_nil] <;> omega, ?_, Or.inl (List.mem_cons_self _ _), rfl, ?_⟩
    · intro x hx
      rcases hx with hx | hx
      · exact Or.inl (List.mem_cons_of_mem _ hx)
      · simp at hx
    · intro hs0 hs1
      simp only [sortedByTime, List.pairwise_cons] at hs0
      refine ⟨hs0.2, by simp [sortedByTime], ?_⟩
      intro x hx
      rcases hx with hx | hx
      · exact hs0.1 x hx
      · simp at hx
  · simp only [pickByte] at h
    by_cases ht : b0.time ≤ b1.time
    · rw [if_pos ht] at h
      simp only [Option.some_inj, Prod.mk.injEq] at h
      obtain ⟨hb, hs⟩ := h
      subst hb
      subst hs
      refine ⟨by simp only [decFuel, List.length_cons, List.length_nil] <;> omega, ?_, Or.inl (List.mem_cons_self _ _), rfl, ?_⟩
      · intro x hx
        rcases hx with hx | hx
        · exact Or.inl (List.mem_cons_of_mem _ hx)
        · exact Or.inr hx
      · intro hs0 hs1
        simp only [sortedByTime, List.pairwise_cons] at hs0 hs1
        refine ⟨hs0.2, by simp [sortedByTime, List.pairwise_cons]; exact hs1, ?_⟩
        intro x hx
        rcases hx with hx | hx
        · exact hs0.1 x hx
        · rcases List.mem_cons.1 hx with hx | hx
          · exact hx ▸ ht
          · exact le_trans ht (hs1.1 x hx)
    · rw [if_neg ht] at h
      simp only [Option.some_inj, Prod.mk.injEq] at h
      obtain ⟨hb, hs⟩ := h
      subst hb
      subst hs
      refine ⟨by simp only [decFuel, List.length_cons, List.length_nil] <;> omega, ?_, Or.inr (List.mem_cons_self _ _), rfl, ?_⟩
      · intro x hx
        rcases hx with hx | hx
        · exact Or.inl hx
        · exact Or.inr (List.mem_cons_of_mem _ hx)
      · intro hs0 hs1
        simp only [sortedByTime, List.pairwise_cons] at hs0 hs1
        refine ⟨by simp [sortedByTime, List.pairwise_cons]; exact hs0, hs1.2, ?_⟩
        intro x hx
        have hlt : b1.time ≤ b0.time := le_of_not_le ht
        rcases hx with hx | hx
        · rcases List.mem_cons.1 hx with hx | hx
          · exact hx ▸ hlt
          · exact le_trans hlt (hs0.1 x hx)
        · exact hs1.1 x hx

end OricTape

namespace OricTape

lemma autoDetect_streams (s : DecoderState) (b : DecodedByte) :
    (autoDetect s b).bs0 = s.bs0 ∧ (autoDetect s b).bs1 = s.bs1 := by
  unfold autoDetect
  split_ifs <;> exact ⟨rfl, rfl⟩

lemma stepOnce_spec (s : DecoderState) (ob : Option DecodedByte)
    (s' : DecoderState) (h : stepOnce s = some (ob, s')) :
    decFuel s = decFuel s' + 1
    ∧ (∀ x, streamsMem x s' → streamsMem x s)
    ∧ (∀ b, ob = some b → streamsMem b s)
    ∧ (sortedByTime s.bs0 → sortedByTime s.bs1 →
        sortedByTime s'.bs0 ∧ sortedByTime s'.bs1
        ∧ ∀ b, ob = some b → ∀ x, streamsMem x s' → b.time ≤ x.time) := by
  unfold stepOnce at h
  match hp : pickByte s with
  | none =>
    rw [hp] at h
    exact absurd h (by simp)
  | some (b, s1) =>
    rw [hp] at h
    obtain ⟨hfuel, hsub, hmem, _, hsorted⟩ := pickByte_spec s b s1 hp
    have hstreams0 : (autoDetect s1 b).bs0 = s1.bs0 := (autoDetect_streams s1 b).1
    have hstreams1 : (autoDetect s1 b).bs1 = s1.bs1 := (autoDetect_streams s1 b).2
    dsimp only at h
    by_cases hsel : (if b.slow then (autoDetect s1 b).select_slow
                     else (autoDetect s1 b).select_fast) = true
    · rw [if_pos hsel] at h
      by_cases herr : (b.sync_error = false ∧ b.parity_error = false)
          ∨ isIdle s1.parser = false
      · rw [if_pos herr] at h
        simp only [Option.some_inj, Prod.mk.injEq] at h
        obtain ⟨hob, hs⟩ := h
        subst hob
        subst hs
        refine ⟨by simpa [decFuel, hstreams0, hstreams1] using hfuel, ?_, ?_, ?_⟩
        · intro x hx
          refine hsub x ?_
          rcases hx with hx | hx
          · exact Or.inl (by rw [← hstreams0]; exact hx)
          · exact Or.inr (by rw [← hstreams1]; exact hx)
        · intro c hc
          rw [Option.some_inj] at hc
          exact hc ▸ hmem
        · intro hs0 hs1
          obtain ⟨g0, g1, gbound⟩ := hsorted hs0 hs1
          refine ⟨by dsimp only; rw [hstreams0]; exact g0,
                  by dsimp only; rw [hstreams1]; exact g1, ?_⟩
          intro c hc x hx
          rw [Option.some_inj] at hc
          subst hc
          refine gbound x ?_
          rcases hx with hx | hx
          · exact Or.inl (by rw [← hstreams0]; exact hx)
          · exact Or.inr (by rw [← hstreams1]; exact hx)
      · rw [if_neg herr] at h
        simp only [Option.some_inj, Prod.mk.injEq] at h
        obtain ⟨hob, hs⟩ := h
        subst hob
        subst hs
        refine ⟨by simpa [decFuel, hstreams0, hstreams1] using hfuel, ?_, ?_, ?_⟩
        · intro x hx
          refine hsub x ?_
          rcases hx with hx | hx
          · exact Or.inl (by rw [← hstreams0]; exact hx)
          · exact Or.inr (by rw [← hstreams1]; exact hx)
        · intro c hc
          simp at hc
        · intro hs0 hs1
          obtain ⟨g0, g1, _⟩ := hsorted hs0 hs1
          refine ⟨by dsimp only; rw [hstreams0]; exact g0,
                  by dsimp only; rw [hstreams1]; exact g1, ?_⟩
          intro c hc
          simp at hc
    · rw [if_neg hsel] at h
      simp only [Option.some_inj, Prod.mk.injEq] at h
      obtain ⟨hob, hs⟩ := h
      subst hob
      subst hs
      refine ⟨by simpa [decFuel, hstreams0, hstreams1] using hfuel, ?_, ?_, ?_⟩
      · intro x hx
        refine hsub x ?_
        rcases hx with hx | hx
        · exact Or.inl (by rw [← hstreams0]; exact hx)
        · exact Or.inr (by rw [← hstreams1]; exact hx)
      · intro c hc
        simp at hc
      · intro hs0 hs1
        obtain ⟨g0, g1, _⟩ := hsorted hs0 hs1
        refine ⟨by rw [hstreams0]; exact g0, by rw [hstreams1]; exact g1, ?_⟩
        intro c hc
        simp at hc

end OricTape

namespace OricTape

lemma readByteFuel_spec :
    ∀ fuel (s : DecoderState) (b : DecodedByte) (s' : DecoderState),
      readByteFuel fuel s = some (b, s') →
      (∀ x, streamsMem x s' → streamsMem x s)
      ∧ streamsMem b s
      ∧ (sortedByTime s.bs0 → sortedByTime s.bs1 →
          sortedByTime s'.bs0 ∧ sortedByTime s'.bs1
          ∧ ∀ x, streamsMem x s' → b.time ≤ x.time) := by
  intro fuel
  induction fuel with
  | zero => intro s b s' h; simp [readByteFuel] at h
  | succ fuel ih =>
    intro s b s' h
    unfold readByteFuel at h
    match hso : stepOnce s with
    | none => rw [hso] at h; exact absurd h (by simp)
    | some (some c, s1) =>
      rw [hso] at h
      simp only [Option.some_inj, Prod.mk.injEq] at h
      obtain ⟨hb, hs⟩ := h
      rw [hb, hs] at hso
      obtain ⟨_, hsub, hmem, hsorted⟩ := stepOnce_spec s (some b) s' hso
      refine ⟨hsub, hmem b rfl, ?_⟩
      intro hs0 hs1
      obtain ⟨g0, g1, gb⟩ := hsorted hs0 hs1
      exact ⟨g0, g1, gb b rfl⟩
    | some (none, s1) =>
      rw [hso] at h
      obtain ⟨_, hsub, _, hsorted⟩ := stepOnce_spec s none s1 hso
      obtain ⟨ihsub, ihmem, ihsorted⟩ := ih s1 b s' h
      refine ⟨fun x hx => hsub x (ihsub x hx), hsub b ihmem, ?_⟩
      intro hs0 hs1
      obtain ⟨g0, g1, _⟩ := hsorted hs0 hs1
      exact ihsorted g0 g1

lemma readAllFuel_mem :
    ∀ fuel (s : DecoderState) (x : DecodedByte),
      x ∈ readAllFuel fuel s → streamsMem x s := by
  intro fuel
  induction fuel with
  | zero => intro s x hx; simp [readAllFuel] at hx
  | succ fuel ih =>
    intro s x hx
    unfold readAllFuel at hx
    match hr : readByte s with
    | none => rw [hr] at hx; simp at hx
    | some (b, s1) =>
      rw [hr] at hx
      rcases List.mem_cons.1 hx with hx | hx
      · exact hx ▸ (readByteFuel_spec (decFuel s) s b s1 hr).2.1
      · exact (readByteFuel_spec (decFuel s) s b s1 hr).1 x (ih s1 x hx)

lemma readAllFuel_sorted :
    ∀ fuel (s : DecoderState),
      sortedByTime s.bs0 → sortedByTime s.bs1 →
      sortedByTime (readAllFuel fuel s) := by
  intro fuel
  induction fuel with
  | zero => intro s _ _; simp [readAllFuel, sortedByTime]
  | succ fuel ih =>
    intro s hs0 hs1
    unfold readAllFuel
    match hr : readByte s with
    | none => simp [sortedByTime]
    | some (b, s1) =>
      obtain ⟨hsub, _, hsorted⟩ := readByteFuel_spec (decFuel s) s b s1 hr
      obtain ⟨g0, g1, gb⟩ := hsorted hs0 hs1
      simp only [sortedByTime, List.pairwise_cons]
      refine ⟨?_, ih s1 g0 g1⟩
      intro y hy
      exact gb y (readAllFuel_mem fuel s1 y hy)

/-- C3: assuming each back-end stream is non-decreasing in time, the
sequence of bytes returned by successive TapeDecoder::ReadByte calls is
globally non-decreasing in time: the merger always takes whichever of
its two peeked bytes has the earlier time. -/
theorem merger_time_monotone (s : DecoderState)
    (h0 : sortedByTime s.bs0) (h1 : sortedByTime s.bs1) :
    sortedByTime (readAll s) :=
  readAllFuel_sorted (decFuel s) s h0 h1

end OricTape

namespace OricTape

lemma stepOnce_of_decFuel_zero (s : DecoderState) (h : decFuel s = 0) :
    stepOnce s = none := by
  obtain ⟨bs0, bs1, sf, ss, pr, fl⟩ := s
  simp only [decFuel] at h
  have h0 : bs0 = [] := List.eq_nil_of_length_eq_zero (by omega)
  have h1 : bs1 = [] := List.eq_nil_of_length_eq_zero (by omega)
  subst h0
  subst h1
  rfl

lemma readByteFuel_congr :
    ∀ f1 f2 (s : DecoderState), decFuel s ≤ f1 → decFuel s ≤ f2 →
      readByteFuel f1 s = readByteFuel f2 s := by
  intro f1
  induction f1 with
  | zero =>
    intro f2 s h1 h2
    have hn := stepOnce_of_decFuel_zero s (by omega)
    cases f2 with
    | zero => rfl
    | succ m => simp [readByteFuel, hn]
  | succ k ih =>
    intro f2 s h1 h2
    cases f2 with
    | zero =>
      have hn := stepOnce_of_decFuel_zero s (by omega)
      simp [readByteFuel, hn]
    | succ m =>
      cases hso : stepOnce s with
      | none => simp [readByteFuel, hso]
      | some p =>
        obtain ⟨ob, s1⟩ := p
        cases ob with
        | some b => simp [readByteFuel, hso]
        | none =>
          have hf := (stepOnce_spec s none s1 hso).1
          simp only [readByteFuel, hso]
          exact ih m s1 (by omega) (by omega)

lemma readByte_eq (s : DecoderState) :
    readByte s = match stepOnce s with
      | none => none
      | some (some b, s1) => some (b, s1)
      | some (none, s1) => readByte s1 := by
  unfold readByte
  cases hso : stepOnce s with
  | none =>
    cases hd : decFuel s with
    | zero => simp [readByteFuel]
    | succ n => simp [readByteFuel, hso]
  | some p =>
    obtain ⟨ob, s1⟩ := p
    have hf := (stepOnce_spec s ob s1 hso).1
    rw [hf]
    cases ob with
    | some b => simp [readByteFuel, hso]
    | none => simp only [readByteFuel, hso]

end OricTape

namespace OricTape

/-- C9 (amended): after the earliest-time byte is taken and the
auto-detect switch applied, a byte whose format matches the selection is
fed to the parser, and is returned unless it carries a sync or parity
error while the parser was idle, in which case the loop continues; a
byte whose format does not match is consumed, not fed to the parser, and
the loop continues. -/
theorem readbyte_selection (s : DecoderState) (b : DecodedByte)
    (s1 : DecoderState) (hpick : pickByte s = some (b, s1)) :
    ((if b.slow then (autoDetect s1 b).select_slow
      else (autoDetect s1 b).select_fast) = true →
      (((b.sync_error = false ∧ b.parity_error = false)
          ∨ isIdle s1.parser = false) →
        readByte s = some (b,
          { autoDetect s1 b with
            parser := (putByte (autoDetect s1 b).parser b).1,
            files := (autoDetect s1 b).files
              ++ (putByte (autoDetect s1 b).parser b).2 }))
      ∧ (¬((b.sync_error = false ∧ b.parity_error = false)
            ∨ isIdle s1.parser = false) →
        readByte s = readByte
          { autoDetect s1 b with
            parser := (putByte (autoDetect s1 b).parser b).1,
            files := (autoDetect s1 b).files
              ++ (putByte (autoDetect s1 b).parser b).2 }))
    ∧ ((if b.slow then (autoDetect s1 b).select_slow
        else (autoDetect s1 b).select_fast) = false →
      readByte s = readByte (autoDetect s1 b)) := by
  rw [readByte_eq]
  unfold stepOnce
  rw [hpick]
  dsimp only
  constructor
  · intro hsel
    constructor
    · intro herr
      rw [if_pos hsel, if_pos herr]
    · intro herr
      rw [if_pos hsel, if_neg herr]
  · intro hsel
    rw [if_neg (by simp [hsel])]

end OricTape

namespace OricTape

/-- Decoder state with one fast-format byte carrying a sync error, fast
format selected, parser idle. -/
def demoBadDecoder : DecoderState :=
  { bs0 := [{ cleanByte 0x00 with sync_error := true }],
    bs1 := [],
    select_fast := true,
    select_slow := false,
    parser := resetState,
    files := [] }

/-- C9 counterexample: the peeked byte's fast format matches the
selection, yet ReadByte does not return it: the byte has a sync error
while the parser is idle, so it is consumed without being returned and
the merger reaches the end of the streams. -/
theorem readbyte_selection_counterexample :
    demoBadDecoder.select_fast = true
    ∧ ({ cleanByte 0x00 with sync_error := true } : DecodedByte).slow = false
    ∧ pickByte demoBadDecoder
        = some ({ cleanByte 0x00 with sync_error := true },
                { demoBadDecoder with bs0 := [] })
    ∧ isIdle demoBadDecoder.parser = true
    ∧ readByte demoBadDecoder = none := by
  refine ⟨rfl, rfl, rfl, rfl, ?_⟩
  decide

/-- Decoder state with one clean fast-format 0x16 byte. -/
def demoGoodDecoder : DecoderState :=
  { bs0 := [cleanByte 0x16],
    bs1 := [],
    select_fast := true,
    select_slow := false,
    parser := resetState,
    files := [] }

/-- Witness for readbyte_selection: a clean selected byte is fed to the
parser and returned. -/
theorem readbyte_selection_witness :
    readByte demoGoodDecoder = some (cleanByte 0x16,
      { autoDetect { demoGoodDecoder with bs0 := [] } (cleanByte 0x16) with
        parser := (putByte (autoDetect { demoGoodDecoder with bs0 := [] }
          (cleanByte 0x16)).parser (cleanByte 0x16)).1,
        files := (autoDetect { demoGoodDecoder with bs0 := [] }
          (cleanByte 0x16)).files
          ++ (putByte (autoDetect { demoGoodDecoder with bs0 := [] }
            (cleanByte 0x16)).parser (cleanByte 0x16)).2 }) :=
  ((readbyte_selection demoGoodDecoder (cleanByte 0x16)
      { demoGoodDecoder with bs0 := [] } (by decide)).1
    (by decide)).1 (by decide)

/-- Two decoder byte streams with non-decreasing times: a fast stream at
times 0 and 1/2, and a slow stream at time 1/4. -/
def demoStreams : DecoderState :=
  { bs0 := [cleanByte 0x16, { cleanByte 0x24 with time := 1/2 }],
    bs1 := [{ cleanByte 0x16 with slow := true, time := 1/4 }],
    select_fast := true,
    select_slow := false,
    parser := resetState,
    files := [] }

/-- Witness for merger_time_monotone on demoStreams. -/
theorem merger_time_monotone_witness :
    sortedByTime (readAll demoStreams) :=
  merger_time_monotone demoStreams
    (by simp only [demoStreams, sortedByTime, List.pairwise_cons, cleanByte]
        refine ⟨?_, ?_, ?_⟩ <;> simp <;> norm_num)
    (by simp [demoStreams, sortedByTime, List.pairwise_cons])

end OricTape
